import Mathlib

/-!
Verification of the dark-seer ingestion core: a shallow embedding of the
rate-limited request admission controller (`darkseer/http.py`,
`darkseer/util.py`), the STRATZ transport and retry loop
(`darkseer/informants/stratz/client.py`), and the match normalization and
event-classification pipeline (`darkseer/informants/stratz/parse.py`,
`darkseer/informants/stratz/schema.py`).

Python integers are modelled as `Int`, Python floats appearing in the
rate-limiter arithmetic as `Rat` (the source only ever performs exact
field arithmetic on them), strings as `String` or `List Char`, `None` as
`Option`, and raised exceptions as `Except` values.
-/

namespace DarkSeer

/-! ### Draft-type derivation (`parse.py::_parse_draft_type`) -/

/-- One raw pick/ban record, as consumed by `_parse_draft_type`.
`playerIndex` is `None`-able in the payload; the other two fields are
booleans. -/
structure PickBan where
  isPick : Bool
  playerIndex : Option Int
  wasBannedSuccessfully : Bool
  deriving Repr, DecidableEq

/-- Embedding of `parse.py::_parse_draft_type`: pick short-circuits;
otherwise the base string "ban" is extended in the order the source
applies: the system-generated marker first, then the vote marker. -/
def parseDraftType (pb : PickBan) : String :=
  if pb.isPick then
    "pick"
  else
    let banType := "ban"
    let banType := if pb.playerIndex = none then "system generated " ++ banType else banType
    let banType := if ¬ pb.wasBannedSuccessfully then banType ++ " vote" else banType
    banType

/-! ### Non-hero-unit target classification (`parse.py::classify_cs_target_event`) -/

/-- Embedding of `parse.py::classify_cs_target_event`, keeping the guard order of the source. -/
def classifyCsTargetEvent (npcId : Int) : String :=
  if 16 < npcId ∧ npcId < 49 then "building destroy"
  else if npcId = 110 then "observer deward"
  else if npcId = 111 then "sentry deward"
  else if npcId = 112 ∨ npcId = 113 then "courier snipe"
  else if npcId = 133 then "roshan death"
  else "creep kill"

/-! ### Enumeration tables (`schema.py::Match` validators)

The three `@validator(..., pre=True)` methods on `Match` translate the
numeric codes of the provider through literal `dict` lookups; a missing key
raises a Python `KeyError` (pydantic v1 only converts `ValueError`,
`TypeError` and `AssertionError` into `ValidationError`, so a `KeyError`
escapes the model constructor). -/

/-- The `regions` dict of `schema.py::Match.region_id_to_name`. -/
def regionIdToName (regionId : Int) : Option String :=
  if regionId = 0 then some "UNDEFINED"
  else if regionId = 1 then some "US West"
  else if regionId = 2 then some "US East"
  else if regionId = 3 then some "Europe West"
  else if regionId = 5 then some "SE Asia"
  else if regionId = 6 then some "Dubai"
  else if regionId = 7 then some "Australia"
  else if regionId = 8 then some "Stockholm"
  else if regionId = 9 then some "Austria"
  else if regionId = 10 then some "Brazil"
  else if regionId = 11 then some "South Africa"
  else if regionId = 12 then some "China"
  else if regionId = 13 then some "China"
  else if regionId = 14 then some "Chile"
  else if regionId = 15 then some "Peru"
  else if regionId = 16 then some "India"
  else if regionId = 17 then some "China"
  else if regionId = 18 then some "China"
  else if regionId = 19 then some "Japan"
  else if regionId = 20 then some "China"
  else if regionId = 25 then some "China"
  else if regionId = 37 then some "Taiwan"
  else none

/-- The `lobby_types` dict of `schema.py::Match.lobby_id_to_name`. -/
def lobbyIdToName (lobbyId : Int) : Option String :=
  if lobbyId = 0 then some "Normal"
  else if lobbyId = 1 then some "Practice"
  else if lobbyId = 2 then some "Tournament"
  else if lobbyId = 3 then some "Tutorial"
  else if lobbyId = 4 then some "Co-op Bots"
  else if lobbyId = 5 then some "Team Matchmaking"
  else if lobbyId = 6 then some "Solo Matchmaking"
  else if lobbyId = 7 then some "Ranked"
  else if lobbyId = 8 then some "1v1 Mid"
  else if lobbyId = 9 then some "Battle Cup"
  else none

/-- The `game_modes` dict of `schema.py::Match.game_mode_to_name`. -/
def gameModeToName (gameModeId : Int) : Option String :=
  if gameModeId = 0 then some "Unknown"
  else if gameModeId = 1 then some "All Pick"
  else if gameModeId = 2 then some "Captains Mode"
  else if gameModeId = 3 then some "Random Draft"
  else if gameModeId = 4 then some "Single Draft"
  else if gameModeId = 5 then some "All Random"
  else if gameModeId = 12 then some "Least Played"
  else if gameModeId = 16 then some "Captains Draft"
  else if gameModeId = 17 then some "Balanced Draft"
  else if gameModeId = 22 then some "All Draft"
  else none

/-! ### Per-match normalization and the batch loop (`client.py::Stratz.matches`)

`Stratz.matches` iterates over the raw match payloads; for every match it
first runs the `parse_*` helpers (whose failures surface as `TypeError`
or feed `pydantic.ValidationError`) and then constructs `schema.Match`,
whose pre-validators perform the three dict lookups above.  The
`try`/`except` around the body catches exactly `(TypeError,
ValidationError)` and converts the match into an `IncompleteMatch`; any
other exception — in particular the `KeyError` from an unknown
enumeration code — propagates out of `Stratz.matches` itself. -/

/-- The slice of a raw match payload that decides the control flow of
`Stratz.matches`: the id/salt, the three enumeration codes, and a flag
recording whether the remaining parsing and field validation succeeds
(i.e. whether the body would raise `TypeError`/`ValidationError`). -/
structure RawMatch where
  matchId : Int
  replaySalt : Int
  regionId : Int
  lobbyId : Int
  gameModeId : Int
  /-- `True` iff the `parse_*` helpers and the non-enum field validation
  of this payload succeed (no `TypeError` / `ValidationError`). -/
  parseOk : Bool
  deriving Repr, DecidableEq

/-- A Python exception that escapes the `except (TypeError,
ValidationError)` clause: the `KeyError` raised by a dict lookup inside a
`Match` validator, carrying the missing key. -/
inductive PyError where
  | keyError (key : Int)
  deriving Repr, DecidableEq

/-- Outcome of one match inside the batch loop: a normalized match (with
its translated enumeration labels) or an `IncompleteMatch` tombstone. -/
inductive MatchResult where
  | ok (matchId replaySalt : Int) (region lobby gameMode : String)
  | incomplete (matchId replaySalt : Int)
  deriving Repr, DecidableEq

/-- One iteration of the loop body of `Stratz.matches`.  The `parse_*`
helpers run before `Match(**m)`, so a `TypeError`/`ValidationError` there
is caught first; otherwise the `Match` validators run in field order
(region, then lobby_type, then game_mode) and an absent code raises
`KeyError`, which the surrounding `except` clause does not catch. -/
def normalizeOne (m : RawMatch) : Except PyError MatchResult :=
  if ¬ m.parseOk then
    .ok (.incomplete m.matchId m.replaySalt)
  else
    match regionIdToName m.regionId with
    | none => .error (.keyError m.regionId)
    | some region =>
      match lobbyIdToName m.lobbyId with
      | none => .error (.keyError m.lobbyId)
      | some lobby =>
        match gameModeToName m.gameModeId with
        | none => .error (.keyError m.gameModeId)
        | some gameMode => .ok (.ok m.matchId m.replaySalt region lobby gameMode)

/-- The batch loop of `Stratz.matches`: accumulates per-match results;
an uncaught exception aborts the whole call, discarding every result. -/
def stratzMatchesBatch : List RawMatch → Except PyError (List MatchResult)
  | [] => .ok []
  | m :: ms =>
    match normalizeOne m with
    | .error e => .error e
    | .ok r =>
      match stratzMatchesBatch ms with
      | .error e => .error e
      | .ok rs => .ok (r :: rs)

/-! ### The base rate-limited client (`util.py::RateLimitedHTTPClient`)

State: `tokens` (float), `max_tokens` (float), `updated_at` (monotonic
clock reading).  `seconds` and the derived `rate = max_tokens / seconds`
are fixed at construction. -/

/-- Mutable state of a `RateLimitedHTTPClient`. -/
structure ClientState where
  tokens : ℚ
  maxTokens : ℚ
  seconds : ℚ
  updatedAt : ℚ
  deriving Repr, DecidableEq

/-- `RateLimitedHTTPClient.rate`: `max_tokens / seconds`. -/
def ClientState.rate (st : ClientState) : ℚ :=
  st.maxTokens / st.seconds

/-- `util.py::RateLimitedHTTPClient.__init__`.  The Python default
`max_tokens or tokens` treats both `None` and `0` as absent. -/
def clientInit (tokens seconds : ℚ) (maxTokens : Option ℚ) (now : ℚ) : ClientState :=
  { tokens := tokens
    maxTokens := match maxTokens with
                 | none => tokens
                 | some m => if m = 0 then tokens else m
    seconds := seconds
    updatedAt := now }

/-- `util.py::RateLimitedHTTPClient.add_new_tokens`, called with the
current clock reading `now`. -/
def addNewTokens (st : ClientState) (now : ℚ) : ClientState :=
  let newTokens := (now - st.updatedAt) * st.rate
  if st.tokens + newTokens ≥ 1 then
    { st with tokens := min (st.tokens + newTokens) st.maxTokens, updatedAt := now }
  else
    st

/-- The token decrement at the end of
`util.py::RateLimitedHTTPClient.wait_for_token`; the preceding `while`
loop guarantees `tokens ≥ 1` at this point. -/
def takeToken (st : ClientState) : ClientState :=
  { st with tokens := st.tokens - 1 }

/-- The reconciliation step of `util.py::RateLimitedHTTPClient.request`:
`remaining = int(headers[x-ratelimit-remaining-hour]) - 10`; the local
count is lowered to `max 0 remaining` only when that is below it. -/
def clientReconcile (st : ClientState) (header : Int) : ClientState :=
  let remainingTokens : ℚ := (header : ℚ) - 10
  if remainingTokens < st.tokens then
    { st with tokens := max 0 remainingTokens }
  else
    st

/-- Events that mutate the token state of a `RateLimitedHTTPClient` after
construction. -/
inductive ClientOp where
  | refill (now : ℚ)
  | take
  | reconcile (header : Int)
  deriving Repr, DecidableEq

/-- Apply one event to the client state. -/
def clientStep (st : ClientState) : ClientOp → ClientState
  | .refill now => addNewTokens st now
  | .take => takeToken st
  | .reconcile h => clientReconcile st h

/-- The preconditions the code itself maintains for an event: the monotonic clock never
runs backwards, and `wait_for_token` only decrements once `tokens ≥ 1`. -/
def ClientOp.wf (st : ClientState) : ClientOp → Prop
  | .refill now => st.updatedAt ≤ now
  | .take => 1 ≤ st.tokens
  | .reconcile _ => True

/-- Apply a sequence of events. -/
def clientRun (st : ClientState) : List ClientOp → ClientState
  | [] => st
  | op :: ops => clientRun (clientStep st op) ops

/-- Every event in the sequence satisfies its precondition in the state
in which it fires. -/
def clientWfRun (st : ClientState) : List ClientOp → Prop
  | [] => True
  | op :: ops => op.wf st ∧ clientWfRun (clientStep st op) ops

/-- The RateBudget invariant from the spec. -/
def ClientState.inv (st : ClientState) : Prop :=
  0 ≤ st.tokens ∧ st.tokens ≤ st.maxTokens

/-! ### The STRATZ client (`informants/stratz/client.py::Stratz`)

`Stratz` subclasses `RateLimitedHTTPClient` with `tokens=300,
seconds=3600`; a bearer token sets `self.tokens = 500` (leaving
`max_tokens` at 300).  It overrides `wait_for_token` with a plain sleep
and `request` with a retry loop. -/

/-- `Stratz.__init__`: the base constructor followed by the
elevated-credential branch. -/
def stratzInit (bearerToken : Option String) (now : ℚ) : ClientState :=
  let st := clientInit 300 3600 none now
  match bearerToken with
  | none => st
  | some _ => { st with tokens := 500 }

/-- `Stratz.burst`: `150 / 60` seconds. -/
def stratzBurst : ℚ := 150 / 60

/-- Python truthiness of `override or self.burst` on floats: `None` and
`0.0` both fall back to the burst interval. -/
def pyOrBurst (override : Option ℚ) : ℚ :=
  match override with
  | none => stratzBurst
  | some x => if x = 0 then stratzBurst else x

/-- `Stratz.wait_for_token`: sleeps, returning the unchanged client state
and the duration slept. -/
def stratzWaitForToken (st : ClientState) (override : Option ℚ) : ClientState × ℚ :=
  (st, pyOrBurst override)

/-- The response fields `Stratz.request` inspects: the HTTP status code
and the two quota headers. -/
structure StratzResp where
  status : Nat
  retryAfter : ℚ
  remainingHour : Int
  deriving Repr, DecidableEq

/-- `httpx.Response.raise_for_status` raises unless the status is a 2xx
success. -/
def isSuccessStatus (s : Nat) : Bool :=
  200 ≤ s ∧ s ≤ 299

/-- The token update on the success path of `Stratz.request` (the line assigning `int` of the remaining-hour header to `self.tokens`): a direct
assignment from the header, ignoring the previous local count. -/
def stratzReconcile (_tokens : Int) (header : Int) : Int :=
  header

/-- `Stratz.request`, driven by the sequence of responses the server
would return for the successive attempts; `tokens` is the local count on
entry.  Returns `none` when the scripted responses are exhausted without
a success (the real coroutine would still be retrying); on success
returns the new token count, the list of back-off sleeps performed (each
via `wait_for_token(override=...)`), and the final response. -/
def stratzRequest (tokens : Int) : List StratzResp → Nat → Option (Int × List ℚ × StratzResp)
  | [], _ => none
  | r :: rs, backoff =>
    if isSuccessStatus r.status then
      some (stratzReconcile tokens r.remainingHour, [], r)
    else
      let backoff' := backoff + 1
      let wait := if r.status = 429 then pyOrBurst (some r.retryAfter)
                  else stratzBurst * (backoff' : ℚ)
      match stratzRequest tokens rs backoff' with
      | none => none
      | some (tk, ws, fin) => some (tk, wait :: ws, fin)

/-! ### The token bucket (`http.py::AsyncRateLimiter`)

State: `tokens` (starts at `burst`), `_last_checked` (starts `None`).
`_flow` refills lazily from elapsed monotonic time; `acquire` spins on
`has_capacity` (each spin is a `_flow` at some later clock reading) and
decrements once a token is available.  We model a run as the
nondecreasing list of clock readings at which `_flow` fires; a grant
happens at exactly the readings where the refreshed bucket holds at
least one token. -/

/-- Constructor arguments of `AsyncRateLimiter`. -/
structure BucketCfg where
  maxTokens : Nat
  seconds : Nat
  burst : Nat
  deriving Repr, DecidableEq

/-- `AsyncRateLimiter.rate`: `_max_tokens / _seconds`. -/
def BucketCfg.rate (cfg : BucketCfg) : ℚ :=
  (cfg.maxTokens : ℚ) / (cfg.seconds : ℚ)

/-- Mutable state of an `AsyncRateLimiter`. -/
structure BucketState where
  tokens : ℚ
  lastChecked : Option ℚ
  deriving Repr, DecidableEq

/-- `AsyncRateLimiter.__init__`: `tokens = burst`, `_last_checked = None`. -/
def bucketInit (cfg : BucketCfg) : BucketState :=
  { tokens := (cfg.burst : ℚ), lastChecked := none }

/-- `AsyncRateLimiter._flow` at clock reading `now`: a `None`
`_last_checked` is first set to `now`; tokens are added only while below
`min(burst, max_tokens)`, capped there; `_last_checked` always advances
to `now`. -/
def flow (cfg : BucketCfg) (st : BucketState) (now : ℚ) : BucketState :=
  if st.tokens < min (cfg.burst : ℚ) (cfg.maxTokens : ℚ) then
    { tokens := min (st.tokens + (now - st.lastChecked.getD now) * cfg.rate)
        (min (cfg.burst : ℚ) (cfg.maxTokens : ℚ)),
      lastChecked := some now }
  else
    { st with lastChecked := some now }

/-- One `has_capacity` probe inside `acquire` at clock reading `now`:
refill, then grant (decrement) iff at least one token is available.
Returns the new state and whether a grant happened. -/
def bucketStep (cfg : BucketCfg) (st : BucketState) (now : ℚ) : BucketState × Bool :=
  let st' := flow cfg st now
  if 1 ≤ st'.tokens then ({ st' with tokens := st'.tokens - 1 }, true)
  else (st', false)

/-- Run the limiter over a list of probe times, recording each probe as
`(time, granted?)`. -/
def bucketRun (cfg : BucketCfg) (st : BucketState) : List ℚ → List (ℚ × Bool)
  | [] => []
  | t :: ts => (t, (bucketStep cfg st t).2) :: bucketRun cfg (bucketStep cfg st t).1 ts

/-- Number of grants that fall in the half-open time window `(a, b]`. -/
def grantsIn (a b : ℚ) (evs : List (ℚ × Bool)) : Nat :=
  evs.countP (fun e => e.2 && decide (a < e.1) && decide (e.1 ≤ b))

/-! ### Event ordering and sequence-id assignment (`parse.py::parse_events`)

Each raw sub-stream is mapped to flat event dicts; the `csEvents`
sub-stream is additionally sorted and enumerated on its own, and at the
end the whole accumulated list is sorted by the key
`(event_type, time)` and the `id` of every record is overwritten with its
enumeration index (dict-merge of the enumerate pair). -/

/-- A flattened match event, as produced by the sub-stream specs.
`payload` stands for the remaining mapped fields (actor, target,
coordinates, ...), which the ordering and id-assignment steps carry
through untouched. -/
structure MatchEvent where
  eventType : String
  time : Int
  id : Nat
  payload : Int
  deriving Repr, DecidableEq

/-- Code points of a string, the order Python compares strings by. -/
def charCodes (s : String) : List Nat :=
  s.data.map Char.toNat

/-- The lexicographic `<` of Python on lists of code points. -/
def natListLt : List Nat → List Nat → Bool
  | _, [] => false
  | [], _ :: _ => true
  | a :: as, b :: bs => decide (a < b) || (a == b && natListLt as bs)

/-- The `≤` of Python between the sort keys (event type, time) of
two events: tuple comparison, string field first. -/
def eventKeyLe (e1 e2 : MatchEvent) : Bool :=
  natListLt (charCodes e1.eventType) (charCodes e2.eventType) ||
    (charCodes e1.eventType == charCodes e2.eventType && decide (e1.time ≤ e2.time))

/-- The `enumerate` + dict-merge step of Python: overwrite the `id` of
each record with consecutive integers starting at `n`. -/
def withIdsFrom : Nat → List MatchEvent → List MatchEvent
  | _, [] => []
  | n, e :: es => { e with id := n } :: withIdsFrom (n + 1) es

/-- The `sorted(..., key=(event_type, time))` + enumerate + id-overwrite
step of `parse_events` (applied to `csEvents` mid-way, and to the whole
event list at the end).  `List.mergeSort` is, like `sorted` in Python, a
stable merge sort. -/
def assignSequenceIds (evs : List MatchEvent) : List MatchEvent :=
  withIdsFrom 0 (evs.mergeSort eventKeyLe)

/-- The ordering/id-assignment skeleton of `parse_events`: the mapped
sub-streams before `csEvents` (`pre`), the `csEvents` sub-stream (which
gets its own sort + enumeration), the sub-streams after it (`post`),
then the global sort + re-enumeration. -/
def parseEventsPipeline (pre cs post : List MatchEvent) : List MatchEvent :=
  assignSequenceIds (pre ++ assignSequenceIds cs ++ post)

/-- Forget the (re-assigned) id of an event, keeping all mapped fields. -/
def eraseId (e : MatchEvent) : MatchEvent :=
  { e with id := 0 }

/-! ### GraphQL query templating (`client.py::Stratz.query`,
`_informants/stratz/api.py::StratzClient._sanitize_gql_query`)

Both client generations substitute `**variables` into the query text by
a `replace` of the dollar-prefixed name by the value text; the legacy
`_sanitize_gql_query` additionally finishes by replacing every single
quote with the empty string. -/

/-- The `str.replace` of Python: replace every non-overlapping occurrence of
`pat` left to right (for a non-empty `pat`; the sources only ever use
non-empty patterns). -/
def pyReplace (pat rep : List Char) : List Char → List Char
  | [] => []
  | c :: rest =>
    if pat ≠ [] ∧ pat.isPrefixOf (c :: rest) then
      rep ++ pyReplace pat rep (List.drop (pat.length - 1) rest)
    else
      c :: pyReplace pat rep rest
  termination_by l => l.length
  decreasing_by
    · simp only [List.length_drop, List.length_cons]
      omega
    · simp only [List.length_cons]
      omega

/-- The substitution loop shared by both clients:
for each (name, value) pair, replace the dollar-prefixed name in `q`
by the value text. -/
def subVars (q : List Char) (vars : List (List Char × List Char)) : List Char :=
  vars.foldl (fun acc nv => pyReplace (Char.ofNat 36 :: nv.1) nv.2 acc) q

/-- The ASCII single quote stripped by the legacy sanitizer. -/
def quoteChar : Char := Char.ofNat 39

/-- The query text `informants/stratz/client.py::Stratz.query` posts:
substitution only, no quote handling. -/
def stratzQueryText (q : List Char) (vars : List (List Char × List Char)) : List Char :=
  subVars q vars

/-- `_informants/stratz/api.py::StratzClient._sanitize_gql_query`:
substitution, then the single-quote removal over the whole query. -/
def sanitizeGqlQuery (q : List Char) (vars : List (List Char × List Char)) : List Char :=
  pyReplace [quoteChar] [] (subVars q vars)

/-! ## Theorems -/

/-- C6: for every raw pick/ban record, the derived draftType is "pick"
whenever the record is marked as a pick; otherwise it starts as "ban",
receives the "system generated " marker exactly when playerIndex is
null, and receives the " vote" marker exactly when
wasBannedSuccessfully is false; with neither flag set the result is the
bare "ban". -/
theorem C6_draft_type_decision_rule :
    (∀ pb : PickBan, parseDraftType pb =
      if pb.isPick then "pick"
      else
        (if pb.playerIndex = none then "system generated " else "") ++ "ban" ++
          (if pb.wasBannedSuccessfully then "" else " vote"))
    ∧ parseDraftType ⟨false, some 3, true⟩ = "ban"
    ∧ parseDraftType ⟨false, none, true⟩ = "system generated ban"
    ∧ parseDraftType ⟨false, some 3, false⟩ = "ban vote"
    ∧ parseDraftType ⟨false, none, false⟩ = "system generated ban vote"
    ∧ parseDraftType ⟨true, none, false⟩ = "pick" := by
  refine ⟨?_, rfl, rfl, rfl, rfl, rfl⟩
  rintro ⟨isPick, playerIndex, wasBanned⟩
  cases isPick <;> cases wasBanned <;> cases playerIndex <;> rfl

/-- C10: the non-hero-unit target classifier is total with exactly six
labels: "building destroy" on 16 < npcId < 49, "observer deward" at 110,
"sentry deward" at 111, "courier snipe" at 112 and 113, "roshan death"
at 133, and "creep kill" on every other integer. -/
theorem C10_classify_cs_target_total (n : Int) :
    classifyCsTargetEvent n ∈
      ["building destroy", "observer deward", "sentry deward",
       "courier snipe", "roshan death", "creep kill"]
    ∧ (16 < n ∧ n < 49 → classifyCsTargetEvent n = "building destroy")
    ∧ (n = 110 → classifyCsTargetEvent n = "observer deward")
    ∧ (n = 111 → classifyCsTargetEvent n = "sentry deward")
    ∧ (n = 112 ∨ n = 113 → classifyCsTargetEvent n = "courier snipe")
    ∧ (n = 133 → classifyCsTargetEvent n = "roshan death")
    ∧ (¬(16 < n ∧ n < 49) → n ≠ 110 → n ≠ 111 → n ≠ 112 → n ≠ 113 → n ≠ 133 →
        classifyCsTargetEvent n = "creep kill") := by
  unfold classifyCsTargetEvent
  refine ⟨?_, ?_, ?_, ?_, ?_, ?_, ?_⟩ <;>
    · split_ifs <;> simp_all <;> omega

/-- C10 witness: the classifier at the concrete ids 20, 110, 111, 112,
113, 133 and 1000. -/
theorem C10_classify_cs_target_total_witness :
    classifyCsTargetEvent 20 = "building destroy"
    ∧ classifyCsTargetEvent 110 = "observer deward"
    ∧ classifyCsTargetEvent 111 = "sentry deward"
    ∧ classifyCsTargetEvent 112 = "courier snipe"
    ∧ classifyCsTargetEvent 133 = "roshan death"
    ∧ classifyCsTargetEvent 1000 = "creep kill" :=
  ⟨(C10_classify_cs_target_total 20).2.1 (by norm_num),
   (C10_classify_cs_target_total 110).2.2.1 rfl,
   (C10_classify_cs_target_total 111).2.2.2.1 rfl,
   (C10_classify_cs_target_total 112).2.2.2.2.1 (Or.inl rfl),
   (C10_classify_cs_target_total 133).2.2.2.2.2.1 rfl,
   (C10_classify_cs_target_total 1000).2.2.2.2.2.2 (by norm_num)
     (by norm_num) (by norm_num) (by norm_num) (by norm_num) (by norm_num)⟩

/-- C5 (code bug): an unknown enumeration code (region 99) raises a
`KeyError` inside the `Match` validator which the `except (TypeError, ValidationError)` clause of the batch loop does not catch, so the whole
`Stratz.matches` call aborts losing every match — whereas a
`TypeError`/`ValidationError`-style parse failure really is per-match
(last conjunct), which is what the spec describes for unknown codes. -/
theorem C5_unknown_enum_aborts_batch :
    regionIdToName 99 = none
    ∧ lobbyIdToName 7 = some "Ranked"
    ∧ stratzMatchesBatch
        [⟨1, 10, 99, 7, 22, true⟩, ⟨2, 20, 1, 7, 22, true⟩] =
        .error (.keyError 99)
    ∧ stratzMatchesBatch [⟨2, 20, 1, 7, 22, true⟩] =
        .ok [.ok 2 20 "US West" "Ranked" "All Draft"]
    ∧ stratzMatchesBatch
        [⟨1, 10, 1, 7, 22, false⟩, ⟨2, 20, 1, 7, 22, true⟩] =
        .ok [.incomplete 1 10, .ok 2 20 "US West" "Ranked" "All Draft"] :=
  ⟨rfl, rfl, rfl, rfl, rfl⟩

/-- Every `some` result of the retry loop carries a success response,
and its token count is the reconciliation of the entry count with that
remaining-quota header of that response. -/
theorem stratzRequest_some_spec (tokens : Int) :
    ∀ rs b out, stratzRequest tokens rs b = some out →
      isSuccessStatus out.2.2.status = true
      ∧ out.1 = stratzReconcile tokens out.2.2.remainingHour := by
  intro rs
  induction rs with
  | nil => intro b out h; simp [stratzRequest] at h
  | cons r rs ih =>
    intro b out h
    rw [stratzRequest] at h
    by_cases hs : isSuccessStatus r.status = true
    · simp only [hs, if_pos] at h
      cases h
      exact ⟨hs, rfl⟩
    · simp only [hs, if_neg, Bool.not_eq_true] at h
      rcases hrec : stratzRequest tokens rs (b + 1) with _ | ⟨tk, ws, fin⟩ <;>
        rw [hrec] at h
      · simp at h
      · cases h
        exact ih (b + 1) (tk, ws, fin) hrec

/-- C3 counterexample: in the Stratz client, a success response whose
remaining-quota header (100) exceeds the local count (5) sets the local
count to 100 — not to `min 5 100 = 5` — so the reconciliation is not the
claimed minimum and does increase the local token count. -/
theorem C3_reconcile_counterexample :
    stratzRequest 5 [⟨200, 0, 100⟩] 0 = some (100, [], ⟨200, 0, 100⟩)
    ∧ stratzReconcile 5 100 = 100
    ∧ ¬((100 : Int) ≤ 5)
    ∧ min (5 : Int) 100 ≠ stratzReconcile 5 100 := by
  refine ⟨rfl, rfl, by norm_num, by norm_num [stratzReconcile]⟩

/-- C3 amended: in the base `RateLimitedHTTPClient`, reconciliation sets
the local count to `max 0 (min previous (header − 10))` — the minimum is
taken against the header minus a safety margin of 10, clamped at 0 — and
(for a nonnegative previous count) never increases it; the Stratz
subclass instead assigns the header value directly, which can increase
the count. -/
theorem C3_reconcile_amended :
    (∀ (st : ClientState) (h : Int), 0 ≤ st.tokens →
       (clientReconcile st h).tokens = max 0 (min st.tokens ((h : ℚ) - 10))
       ∧ (clientReconcile st h).tokens ≤ st.tokens)
    ∧ (∀ prev header : Int, stratzReconcile prev header = header) := by
  refine ⟨?_, fun _ _ => rfl⟩
  intro st h h0
  unfold clientReconcile
  dsimp only
  split_ifs with hlt
  · constructor
    · simp [min_eq_right (le_of_lt hlt)]
    · exact max_le h0 (le_of_lt hlt)
  · push_neg at hlt
    constructor
    · simp [min_eq_left hlt, max_eq_right h0]
    · rfl

/-- C3 amended witness: the base client at `tokens = 5` receiving header
`2` reconciles to `max 0 (min 5 (2 − 10)) = 0`. -/
theorem C3_reconcile_amended_witness :
    (clientReconcile ⟨5, 300, 3600, 0⟩ 2).tokens = max 0 (min 5 ((2 : ℚ) - 10))
    ∧ (clientReconcile ⟨5, 300, 3600, 0⟩ 2).tokens ≤ 5 :=
  C3_reconcile_amended.1 ⟨5, 300, 3600, 0⟩ 2 (by norm_num)

/-- C9: `Stratz.wait_for_token` returns the client state unchanged (in
particular the token count), sleeps for a duration that does not depend
on the state — `150/60` seconds without an override, the override value
when a nonzero one is supplied — and the token count produced by
`Stratz.request` comes solely from the response-header reconciliation on
its success path. -/
theorem C9_wait_for_token_frame :
    (∀ st o, (stratzWaitForToken st o).1 = st)
    ∧ (∀ st st' o, (stratzWaitForToken st o).2 = (stratzWaitForToken st' o).2)
    ∧ (∀ st, (stratzWaitForToken st none).2 = 150 / 60)
    ∧ (∀ st x, x ≠ 0 → (stratzWaitForToken st (some x)).2 = x)
    ∧ (∀ tokens rs b out, stratzRequest tokens rs b = some out →
        out.1 = stratzReconcile tokens out.2.2.remainingHour) := by
  refine ⟨fun _ _ => rfl, fun _ _ _ => rfl, fun _ => rfl, ?_, ?_⟩
  · intro st x hx
    simp [stratzWaitForToken, pyOrBurst, hx]
  · intro tokens rs b out h
    exact (stratzRequest_some_spec tokens rs b out h).2

/-- C9 witness: a nonzero override of 7 seconds is slept verbatim, on a
concrete client state. -/
theorem C9_wait_for_token_frame_witness :
    (stratzWaitForToken ⟨300, 300, 3600, 0⟩ (some 7)).2 = 7 :=
  C9_wait_for_token_frame.2.2.2.1 ⟨300, 300, 3600, 0⟩ 7 (by norm_num)

/-- When every scripted response is an error, the retry loop never
returns: it is still recursing when the script runs out. -/
theorem stratzRequest_all_error (tokens : Int) :
    ∀ rs b, (∀ r ∈ rs, isSuccessStatus r.status = false) →
      stratzRequest tokens rs b = none := by
  intro rs
  induction rs with
  | nil => intro b _; rfl
  | cons r rs ih =>
    intro b hall
    rw [stratzRequest]
    have hr : isSuccessStatus r.status = false := hall r (by simp)
    simp only [hr, Bool.false_eq_true, if_false]
    rw [ih (b + 1) (fun x hx => hall x (by simp [hx]))]

/-- Running the retry loop against `n` consecutive non-429 errors and
then a success: it consumes all `n + 1` responses, sleeping the linearly
increasing back-offs `burst·(b+1), burst·(b+2), …`, and returns the
success response with the header-reconciled token count. -/
theorem stratzRequest_linear_backoff (tokens : Int) (err ok : StratzResp)
    (herr : isSuccessStatus err.status = false) (hne : err.status ≠ 429)
    (hok : isSuccessStatus ok.status = true) :
    ∀ n b, stratzRequest tokens (List.replicate n err ++ [ok]) b =
      some (stratzReconcile tokens ok.remainingHour,
            (List.range n).map (fun i => stratzBurst * ((b + 1 + i : ℕ) : ℚ)), ok) := by
  intro n
  induction n with
  | zero =>
    intro b
    simp only [List.replicate, List.nil_append, List.range_zero, List.map_nil]
    rw [stratzRequest]
    simp [hok]
  | succ n ih =>
    intro b
    have hmap : stratzBurst * ((b + 1 : ℕ) : ℚ) ::
        (List.range n).map (fun i => stratzBurst * ((b + 1 + 1 + i : ℕ) : ℚ)) =
        (List.range (n + 1)).map (fun i => stratzBurst * ((b + 1 + i : ℕ) : ℚ)) := by
      rw [List.range_succ_eq_map, List.map_cons, List.map_map]
      congr 1
      refine List.map_congr_left fun i _ => ?_
      have hadd : b + 1 + 1 + i = b + 1 + (i + 1) := by omega
      simp [Function.comp_def, hadd]
    simp only [List.replicate_succ, List.cons_append]
    rw [stratzRequest]
    simp only [herr, Bool.false_eq_true, if_false, hne, if_neg, ih (b + 1)]
    rw [← hmap]

/-- C4 counterexample: a 429 response carrying `retry-after: 0` is
retried after `burst = 150/60 = 5/2` seconds, not after the
provider-supplied 0 seconds, because `override or self.burst` treats the
float `0.0` as absent. -/
theorem C4_retry_counterexample :
    stratzRequest 300 [⟨429, 0, 100⟩, ⟨200, 0, 99⟩] 0 =
      some (99, [stratzBurst], ⟨200, 0, 99⟩)
    ∧ stratzBurst ≠ 0 :=
  ⟨rfl, by norm_num [stratzBurst]⟩

/-- C4 amended: on a 429 the transport waits the provider-supplied
retry-after duration when it is nonzero, falling back to the burst
interval when the header value is zero; on any other error status it
waits burstInterval × backoffCount with backoffCount incremented once
per retry (linear back-off); a success returns immediately with the
header-reconciled token count; the loop returns only success responses,
keeps retrying while every response is an error, and succeeds after `n`
errors for every `n` (no upper bound on attempts). -/
theorem C4_retry_amended :
    (∀ (tokens : Int) rs b (ra : ℚ) (k : Int), ra ≠ 0 →
      stratzRequest tokens (⟨429, ra, k⟩ :: rs) b =
        match stratzRequest tokens rs (b + 1) with
        | none => none
        | some (tk, ws, fin) => some (tk, ra :: ws, fin))
    ∧ (∀ (tokens : Int) rs b (k : Int),
      stratzRequest tokens (⟨429, 0, k⟩ :: rs) b =
        match stratzRequest tokens rs (b + 1) with
        | none => none
        | some (tk, ws, fin) => some (tk, stratzBurst :: ws, fin))
    ∧ (∀ (tokens : Int) (r : StratzResp) rs b,
        isSuccessStatus r.status = false → r.status ≠ 429 →
        stratzRequest tokens (r :: rs) b =
          match stratzRequest tokens rs (b + 1) with
          | none => none
          | some (tk, ws, fin) => some (tk, (stratzBurst * ((b : ℚ) + 1)) :: ws, fin))
    ∧ (∀ (tokens : Int) (r : StratzResp) rs b, isSuccessStatus r.status = true →
        stratzRequest tokens (r :: rs) b =
          some (stratzReconcile tokens r.remainingHour, [], r))
    ∧ (∀ (tokens : Int) rs b, (∀ r ∈ rs, isSuccessStatus r.status = false) →
        stratzRequest tokens rs b = none)
    ∧ (∀ (tokens : Int) rs b out, stratzRequest tokens rs b = some out →
        isSuccessStatus out.2.2.status = true)
    ∧ (∀ (tokens : Int) (err ok : StratzResp) n b,
        isSuccessStatus err.status = false → err.status ≠ 429 →
        isSuccessStatus ok.status = true →
        stratzRequest tokens (List.replicate n err ++ [ok]) b =
          some (stratzReconcile tokens ok.remainingHour,
                (List.range n).map (fun i => stratzBurst * ((b + 1 + i : ℕ) : ℚ)), ok)) := by
  refine ⟨?_, ?_, ?_, ?_, ?_, ?_, ?_⟩
  · intro tokens rs b ra k hra
    rw [stratzRequest]
    have h429 : isSuccessStatus 429 = false := rfl
    simp [h429, pyOrBurst, hra]
  · intro tokens rs b k
    rw [stratzRequest]
    have h429 : isSuccessStatus 429 = false := rfl
    simp [h429, pyOrBurst]
  · intro tokens r rs b herr hne
    rw [stratzRequest]
    simp only [herr, Bool.false_eq_true, if_false, hne, if_neg]
    push_cast
    rfl
  · intro tokens r rs b hok
    rw [stratzRequest]
    simp [hok]
  · exact stratzRequest_all_error
  · intro tokens rs b out h
    exact (stratzRequest_some_spec tokens rs b out h).1
  · intro tokens err ok n b herr hne hok
    exact stratzRequest_linear_backoff tokens err ok herr hne hok n b

/-- C4 amended witness: two non-429 errors (status 500) then a success,
starting from backoff count 0, waits `burst·1` then `burst·2` and ends
with the reconciled token count 42. -/
theorem C4_retry_amended_witness :
    stratzRequest 300 (List.replicate 2 ⟨500, 0, 0⟩ ++ [⟨200, 0, 42⟩]) 0 =
      some (stratzReconcile 300 42,
            (List.range 2).map (fun i => stratzBurst * ((0 + 1 + i : ℕ) : ℚ)),
            ⟨200, 0, 42⟩) :=
  C4_retry_amended.2.2.2.2.2.2 300 ⟨500, 0, 0⟩ ⟨200, 0, 42⟩ 2 0 rfl
    (by norm_num) rfl

/-- A single well-formed event on the base client preserves the
RateBudget invariant, and never touches the capacity. -/
theorem clientStep_inv (st : ClientState) (op : ClientOp)
    (hinv : st.inv) (hwf : op.wf st) :
    (clientStep st op).inv ∧ (clientStep st op).maxTokens = st.maxTokens := by
  obtain ⟨h0, hmax⟩ := hinv
  have hM : (0 : ℚ) ≤ st.maxTokens := le_trans h0 hmax
  cases op with
  | refill now =>
    simp only [clientStep, addNewTokens]
    split_ifs with h1
    · exact ⟨⟨le_min (by linarith) hM, min_le_right _ _⟩, rfl⟩
    · exact ⟨⟨h0, hmax⟩, rfl⟩
  | take =>
    have hwf' : (1 : ℚ) ≤ st.tokens := hwf
    exact ⟨⟨by simp [clientStep, takeToken]; linarith,
            by simp [clientStep, takeToken]; linarith⟩, rfl⟩
  | reconcile h =>
    simp only [clientStep, clientReconcile]
    split_ifs with hlt
    · exact ⟨⟨le_max_left _ _, max_le hM (by linarith)⟩, rfl⟩
    · exact ⟨⟨h0, hmax⟩, rfl⟩

/-- Well-formed event sequences on the base client preserve the
invariant. -/
theorem clientRun_inv :
    ∀ (ops : List ClientOp) (st : ClientState), st.inv → clientWfRun st ops →
      (clientRun st ops).inv := by
  intro ops
  induction ops with
  | nil => intro st hinv _; exact hinv
  | cons op ops ih =>
    intro st hinv hwf
    exact ih (clientStep st op) (clientStep_inv st op hinv hwf.1).1 hwf.2

/-- C2 counterexample: constructing the Stratz client with a bearer
token sets `tokens = 500` while `max_tokens` stays 300, so immediately
after the elevated-credential construction `available > capacity` and
the invariant `0 ≤ available ≤ capacity` fails. -/
theorem C2_elevated_credential_counterexample :
    (stratzInit (some "Bearer xyz") 0).tokens = 500
    ∧ (stratzInit (some "Bearer xyz") 0).maxTokens = 300
    ∧ ¬ (stratzInit (some "Bearer xyz") 0).inv := by
  refine ⟨rfl, rfl, fun h => ?_⟩
  have h2 := h.2
  norm_num [stratzInit, clientInit, ClientState.inv] at h2

/-- C2 amended: `0 ≤ available ≤ capacity` holds in every state the base
client reaches from an invariant-satisfying construction through any
well-formed interleaving of token waits, refills and header
reconciliations, and holds for the anonymous Stratz construction; the
elevated-credential path, however, raises `available` to 500 without
raising the capacity (`max_tokens` stays 300), violating
`available ≤ capacity` at construction time. -/
theorem C2_rate_budget_invariant_amended :
    (∀ (st : ClientState) (ops : List ClientOp), st.inv → clientWfRun st ops →
      (clientRun st ops).inv)
    ∧ (∀ now : ℚ, (stratzInit none now).inv)
    ∧ (∀ (tok : String) (now : ℚ),
        (stratzInit (some tok) now).tokens = 500
        ∧ (stratzInit (some tok) now).maxTokens = 300
        ∧ ¬ (stratzInit (some tok) now).inv) := by
  refine ⟨fun st ops => clientRun_inv ops st, ?_, ?_⟩
  · intro now
    constructor <;> norm_num [stratzInit, clientInit]
  · intro tok now
    refine ⟨rfl, rfl, fun h => ?_⟩
    have h2 := h.2
    norm_num [stratzInit, clientInit, ClientState.inv] at h2

/-- C2 amended witness: the anonymous Stratz client after one token
take, one header reconciliation and one refill still satisfies the
invariant. -/
theorem C2_rate_budget_invariant_amended_witness :
    (clientRun (stratzInit none 0)
      [ClientOp.take, ClientOp.reconcile 100, ClientOp.refill 1]).inv :=
  C2_rate_budget_invariant_amended.1 (stratzInit none 0)
    [ClientOp.take, ClientOp.reconcile 100, ClientOp.refill 1]
    (by constructor <;> norm_num [stratzInit, clientInit])
    (by refine ⟨?_, trivial, ?_, trivial⟩ <;>
          norm_num [stratzInit, clientInit, ClientOp.wf, clientStep, takeToken,
            clientReconcile, ClientState.rate])

/-- `s.replace(c, "")` leaves no occurrence of the character `c`. -/
theorem pyReplace_strip_char (c : Char) :
    ∀ s : List Char, c ∉ pyReplace [c] [] s := by
  intro s
  induction s with
  | nil => simp [pyReplace]
  | cons x rest ih =>
    rw [pyReplace]
    split_ifs with h
    · simpa using ih
    · intro hmem
      rcases List.mem_cons.mp hmem with hx | hx
      · exact h ⟨by simp, by simp [List.isPrefixOf, hx]⟩
      · exact ih hx

/-- A replacement whose pattern starts with a character absent from the
text leaves the text unchanged. -/
theorem pyReplace_of_head_not_mem (c : Char) (pat rep : List Char) :
    ∀ s : List Char, c ∉ s → pyReplace (c :: pat) rep s = s := by
  intro s
  induction s with
  | nil => intro _; rw [pyReplace]
  | cons x rest ih =>
    intro hnot
    rw [pyReplace]
    have hx : c ≠ x := fun h => hnot (h ▸ List.mem_cons_self x rest)
    have hpre : (c :: pat).isPrefixOf (x :: rest) = false := by
      simp [List.isPrefixOf, hx]
    simp only [hpre, Bool.false_eq_true, and_false, if_false]
    rw [ih (fun h => hnot (List.mem_cons_of_mem x h))]

/-- Literal textual replacement of a single placeholder: if the marker
character opens no other occurrence, `replace` splices the value in
place of the placeholder. -/
theorem pyReplace_subst (c : Char) (n v pre post : List Char)
    (hpre : c ∉ pre) (hpost : c ∉ post) :
    pyReplace (c :: n) v (pre ++ c :: (n ++ post)) = pre ++ v ++ post := by
  induction pre with
  | nil =>
    simp only [List.nil_append]
    rw [pyReplace]
    have hpfx : (c :: n).isPrefixOf (c :: (n ++ post)) = true := by
      simp only [List.isPrefixOf, beq_self_eq_true, Bool.true_and]
      exact List.isPrefixOf_iff_prefix.mpr (List.prefix_append n post)
    simp only [hpfx, ne_eq, reduceCtorEq, not_false_eq_true, true_and, if_true]
    have hdrop : List.drop ((c :: n).length - 1) (n ++ post) = post := by
      simp only [List.length_cons, Nat.add_sub_cancel]
      exact List.drop_left n post
    rw [hdrop, pyReplace_of_head_not_mem c n v post hpost]
  | cons x pre' ih =>
    have hx : c ≠ x := fun h => hpre (h ▸ List.mem_cons_self x pre')
    simp only [List.cons_append]
    rw [pyReplace]
    have hpfx : (c :: n).isPrefixOf (x :: (pre' ++ c :: (n ++ post))) = false := by
      simp [List.isPrefixOf, hx]
    simp only [hpfx, Bool.false_eq_true, and_false, if_false]
    rw [ih (fun h => hpre (List.mem_cons_of_mem x h))]

/-- C8 counterexample: the current client substitutes `$x` by the literal
value text and posts it unmodified, so a value containing a single quote
reaches the wire with the quote intact — quote characters are not
stripped from substituted values before the query is sent. -/
theorem C8_quote_not_stripped_counterexample :
    stratzQueryText ['a', ' ', Char.ofNat 36, 'x']
        [(['x'], ['i', 't', quoteChar, 's'])] =
      ['a', ' ', 'i', 't', quoteChar, 's']
    ∧ quoteChar ∈ stratzQueryText ['a', ' ', Char.ofNat 36, 'x']
        [(['x'], ['i', 't', quoteChar, 's'])] := by
  have h : stratzQueryText ['a', ' ', Char.ofNat 36, 'x']
      [(['x'], ['i', 't', quoteChar, 's'])] =
      ['a', ' '] ++ ['i', 't', quoteChar, 's'] ++ [] :=
    pyReplace_subst (Char.ofNat 36) ['x'] ['i', 't', quoteChar, 's'] ['a', ' '] []
      (by decide) (by decide)
  rw [h]
  exact ⟨rfl, by simp⟩

/-- C8 amended: both client generations substitute `$name` placeholders
by literal textual replacement of the value; the legacy
`_sanitize_gql_query` then strips every single-quote character from the
entire substituted query — template text included, not only substituted
values — while the current `Stratz.query` posts the substituted text
verbatim with no quote stripping. -/
theorem C8_query_templating_amended :
    (∀ (n v pre post : List Char),
        Char.ofNat 36 ∉ pre → Char.ofNat 36 ∉ post →
        subVars (pre ++ Char.ofNat 36 :: (n ++ post)) [(n, v)] = pre ++ v ++ post)
    ∧ (∀ q vars, quoteChar ∉ sanitizeGqlQuery q vars)
    ∧ sanitizeGqlQuery [quoteChar] [] = []
    ∧ (∀ q vars, stratzQueryText q vars = subVars q vars) := by
  refine ⟨?_, ?_, ?_, fun _ _ => rfl⟩
  · intro n v pre post hpre hpost
    exact pyReplace_subst (Char.ofNat 36) n v pre post hpre hpost
  · intro q vars
    exact pyReplace_strip_char quoteChar (subVars q vars)
  · show pyReplace [quoteChar] [] (subVars [quoteChar] []) = []
    rw [show subVars [quoteChar] [] = [quoteChar] from rfl, pyReplace]
    simp [pyReplace, List.isPrefixOf]

/-- C8 amended witness: substituting `$x := b` into the template `a$x`. -/
theorem C8_query_templating_amended_witness :
    subVars (['a'] ++ Char.ofNat 36 :: (['x'] ++ [])) [(['x'], ['b'])] =
      ['a'] ++ ['b'] ++ [] :=
  C8_query_templating_amended.1 ['x'] ['b'] ['a'] [] (by decide) (by decide)

/-- Transitivity of Python's lexicographic `<` on code-point lists. -/
theorem natListLt_trans :
    ∀ a b c, natListLt a b = true → natListLt b c = true → natListLt a c = true := by
  intro a
  induction a with
  | nil =>
    intro b c hab hbc
    cases b with
    | nil => simp [natListLt] at hab
    | cons y ys =>
      cases c with
      | nil => simp [natListLt] at hbc
      | cons z zs => simp [natListLt]
  | cons x xs ih =>
    intro b c hab hbc
    cases b with
    | nil => simp [natListLt] at hab
    | cons y ys =>
      cases c with
      | nil => simp [natListLt] at hbc
      | cons z zs =>
        simp only [natListLt, Bool.or_eq_true, decide_eq_true_eq, Bool.and_eq_true,
          beq_iff_eq] at hab hbc ⊢
        rcases hab with h1 | ⟨he1, h1⟩
        · rcases hbc with h2 | ⟨he2, h2⟩
          · exact Or.inl (lt_trans h1 h2)
          · subst he2; exact Or.inl h1
        · subst he1
          rcases hbc with h2 | ⟨he2, h2⟩
          · exact Or.inl h2
          · subst he2; exact Or.inr ⟨rfl, ih ys zs h1 h2⟩

/-- Two code-point lists neither of which is lexicographically below the
other are equal. -/
theorem natListLt_conn :
    ∀ a b, natListLt a b = false → natListLt b a = false → a = b := by
  intro a
  induction a with
  | nil =>
    intro b h1 _
    cases b with
    | nil => rfl
    | cons y ys => simp [natListLt] at h1
  | cons x xs ih =>
    intro b h1 h2
    cases b with
    | nil => simp [natListLt] at h2
    | cons y ys =>
      by_cases hxy : x < y
      · simp [natListLt, hxy] at h1
      · by_cases hyx : y < x
        · simp [natListLt, hyx] at h2
        · have hxy' : x = y := le_antisymm (not_lt.mp hyx) (not_lt.mp hxy)
          subst hxy'
          simp only [natListLt, decide_eq_true_eq, Bool.or_eq_false_iff,
            Bool.and_eq_false_iff, beq_iff_eq] at h1 h2
          rcases h1.2 with h | h
          · simp at h
          · rcases h2.2 with h' | h'
            · simp at h'
            · rw [ih ys (by simpa using h) (by simpa using h')]

/-- The event sort key comparison is transitive. -/
theorem eventKeyLe_trans :
    ∀ a b c, eventKeyLe a b = true → eventKeyLe b c = true → eventKeyLe a c = true := by
  intro a b c hab hbc
  simp only [eventKeyLe, Bool.or_eq_true, Bool.and_eq_true, beq_iff_eq,
    decide_eq_true_eq] at hab hbc ⊢
  rcases hab with h1 | ⟨he1, h1⟩
  · rcases hbc with h2 | ⟨he2, h2⟩
    · exact Or.inl (natListLt_trans _ _ _ h1 h2)
    · exact Or.inl (he2 ▸ h1)
  · rcases hbc with h2 | ⟨he2, h2⟩
    · exact Or.inl (he1 ▸ h2)
    · exact Or.inr ⟨he1.trans he2, le_trans h1 h2⟩

/-- The event sort key comparison is total. -/
theorem eventKeyLe_total :
    ∀ a b, (eventKeyLe a b || eventKeyLe b a) = true := by
  intro a b
  simp only [eventKeyLe, Bool.or_eq_true, Bool.and_eq_true, beq_iff_eq,
    decide_eq_true_eq]
  by_cases h1 : natListLt (charCodes a.eventType) (charCodes b.eventType) = true
  · exact Or.inl (Or.inl h1)
  · by_cases h2 : natListLt (charCodes b.eventType) (charCodes a.eventType) = true
    · exact Or.inr (Or.inl h2)
    · have he := natListLt_conn _ _ (Bool.not_eq_true _ ▸ h1) (Bool.not_eq_true _ ▸ h2)
      rcases le_total a.time b.time with ht | ht
      · exact Or.inl (Or.inr ⟨he, ht⟩)
      · exact Or.inr (Or.inr ⟨he.symm, ht⟩)

/-- Id re-assignment produces the consecutive integers `n, n+1, …`. -/
theorem withIdsFrom_map_id :
    ∀ (l : List MatchEvent) (n : ℕ),
      (withIdsFrom n l).map (fun e => e.id) = List.range' n l.length := by
  intro l
  induction l with
  | nil => intro n; rfl
  | cons e es ih =>
    intro n
    simp only [withIdsFrom, List.map_cons, List.length_cons, List.range'_succ, ih (n + 1)]

/-- Id re-assignment does not change the number of events. -/
theorem withIdsFrom_length :
    ∀ (l : List MatchEvent) (n : ℕ), (withIdsFrom n l).length = l.length := by
  intro l
  induction l with
  | nil => intro n; rfl
  | cons e es ih => intro n; simp [withIdsFrom, ih]

/-- Id re-assignment changes nothing but the ids. -/
theorem withIdsFrom_map_eraseId :
    ∀ (l : List MatchEvent) (n : ℕ),
      (withIdsFrom n l).map eraseId = l.map eraseId := by
  intro l
  induction l with
  | nil => intro n; rfl
  | cons e es ih => intro n; simp only [withIdsFrom, List.map_cons, ih]; rfl

/-- Every element of `withIdsFrom n l` is an element of `l` with its id
overwritten. -/
theorem withIdsFrom_mem :
    ∀ (l : List MatchEvent) (n : ℕ) (y : MatchEvent), y ∈ withIdsFrom n l →
      ∃ x ∈ l, ∃ k, y = { x with id := k } := by
  intro l
  induction l with
  | nil => intro n y hy; simp [withIdsFrom] at hy
  | cons e es ih =>
    intro n y hy
    rcases List.mem_cons.mp hy with h | h
    · exact ⟨e, List.mem_cons_self e es, n, h⟩
    · obtain ⟨x, hx, k, hk⟩ := ih (n + 1) y h
      exact ⟨x, List.mem_cons_of_mem e hx, k, hk⟩

/-- Id re-assignment preserves any id-independent pairwise relation. -/
theorem withIdsFrom_pairwise (R : MatchEvent → MatchEvent → Prop)
    (hR : ∀ a b i j, R a b → R { a with id := i } { b with id := j }) :
    ∀ (l : List MatchEvent) (n : ℕ), l.Pairwise R → (withIdsFrom n l).Pairwise R := by
  intro l
  induction l with
  | nil => intro n _; exact List.Pairwise.nil
  | cons e es ih =>
    intro n hp
    rcases List.pairwise_cons.mp hp with ⟨hhead, htail⟩
    refine List.pairwise_cons.mpr ⟨?_, ih (n + 1) htail⟩
    intro y hy
    obtain ⟨x, hx, k, hk⟩ := withIdsFrom_mem es (n + 1) y hy
    subst hk
    exact hR e x n k (hhead x hx)

/-- C7: the final event list of a normalized match is sorted by the
`(eventType, timestamp)` key, its `sequenceId`s are exactly
`0, 1, …, n−1` in that order (hence unique and never reused), and modulo
the overwritten ids it is a permutation of the events of all
sub-streams — regardless of the ids the `csEvents` sub-stream was assigned
earlier. -/
theorem C7_sequence_id_assignment (pre cs post : List MatchEvent) :
    (parseEventsPipeline pre cs post).map (fun e => e.id) =
      List.range (pre.length + cs.length + post.length)
    ∧ (parseEventsPipeline pre cs post).Pairwise (fun a b => eventKeyLe a b = true)
    ∧ ((parseEventsPipeline pre cs post).map eraseId).Perm
        ((pre ++ cs ++ post).map eraseId)
    ∧ ((parseEventsPipeline pre cs post).map (fun e => e.id)).Nodup := by
  have hlen : (pre ++ assignSequenceIds cs ++ post).length =
      pre.length + cs.length + post.length := by
    simp only [assignSequenceIds, withIdsFrom_length, List.length_append,
      List.length_mergeSort]
  have hids : (parseEventsPipeline pre cs post).map (fun e => e.id) =
      List.range (pre.length + cs.length + post.length) := by
    unfold parseEventsPipeline assignSequenceIds
    rw [withIdsFrom_map_id, List.length_mergeSort]
    rw [show ((pre ++ withIdsFrom 0 (cs.mergeSort eventKeyLe) ++ post).length =
          pre.length + cs.length + post.length) from hlen]
    exact (List.range_eq_range' _).symm
  refine ⟨hids, ?_, ?_, ?_⟩
  · unfold parseEventsPipeline assignSequenceIds
    refine withIdsFrom_pairwise _ (fun a b i j h => h) _ 0 ?_
    exact List.sorted_mergeSort eventKeyLe_trans eventKeyLe_total _
  · unfold parseEventsPipeline assignSequenceIds
    rw [withIdsFrom_map_eraseId]
    refine ((List.mergeSort_perm _ eventKeyLe).map eraseId).trans ?_
    rw [List.map_append, List.map_append, List.map_append, List.map_append,
      withIdsFrom_map_eraseId]
    exact List.Perm.append
      (List.Perm.append (List.Perm.refl _)
        ((List.mergeSort_perm cs eventKeyLe).map eraseId))
      (List.Perm.refl _)
  · rw [hids]; exact List.nodup_range _

/-- Probe times are nondecreasing and start no earlier than the state's
last clock reading (monotonic time). -/
def chainFrom : Option ℚ → List ℚ → Prop
  | none, ts => ts.Chain' (· ≤ ·)
  | some l, ts => List.Chain (· ≤ ·) l ts

/-- The refill rate is nonnegative. -/
theorem BucketCfg.rate_nonneg (cfg : BucketCfg) : 0 ≤ cfg.rate :=
  div_nonneg (Nat.cast_nonneg _) (Nat.cast_nonneg _)

/-- `_flow` always advances `_last_checked` to the probe time. -/
theorem flow_lastChecked (cfg : BucketCfg) (st : BucketState) (now : ℚ) :
    (flow cfg st now).lastChecked = some now := by
  unfold flow
  split_ifs <;> rfl

/-- `_flow` never pushes the bucket above `burst`. -/
theorem flow_tokens_le_burst (cfg : BucketCfg) (st : BucketState) (now : ℚ)
    (h : st.tokens ≤ (cfg.burst : ℚ)) :
    (flow cfg st now).tokens ≤ (cfg.burst : ℚ) := by
  unfold flow
  split_ifs with hlt
  · exact le_trans (min_le_right _ _) (min_le_left _ _)
  · exact h

/-- `_flow` keeps the bucket nonnegative when time moves forward. -/
theorem flow_tokens_nonneg (cfg : BucketCfg) (st : BucketState) (now : ℚ)
    (h0 : 0 ≤ st.tokens)
    (hl : ∀ l, st.lastChecked = some l → l ≤ now) :
    0 ≤ (flow cfg st now).tokens := by
  unfold flow
  split_ifs with hlt
  · refine le_min ?_ (le_min (Nat.cast_nonneg _) (Nat.cast_nonneg _))
    have hd : 0 ≤ (now - st.lastChecked.getD now) * cfg.rate := by
      refine mul_nonneg ?_ cfg.rate_nonneg
      cases hc : st.lastChecked with
      | none => simp [hc]
      | some l => simpa [hc] using hl l hc
    linarith
  · exact h0

/-- `_flow` adds at most `(now − last) · rate` tokens. -/
theorem flow_tokens_le_add (cfg : BucketCfg) (st : BucketState) (now l : ℚ)
    (hc : st.lastChecked = some l) (hl : l ≤ now) :
    (flow cfg st now).tokens ≤ st.tokens + (now - l) * cfg.rate := by
  unfold flow
  rw [hc]
  simp only [Option.getD_some]
  have hd : 0 ≤ (now - l) * cfg.rate :=
    mul_nonneg (by linarith) cfg.rate_nonneg
  split_ifs with hlt
  · simp only []
    exact le_trans (min_le_left _ _) (by linarith)
  · simp only []
    linarith

/-- Counting grants in a window, one probe at a time. -/
theorem grantsIn_cons (a b t : ℚ) (g : Bool) (evs : List (ℚ × Bool)) :
    grantsIn a b ((t, g) :: evs) =
      grantsIn a b evs + (if g = true ∧ a < t ∧ t ≤ b then 1 else 0) := by
  simp only [grantsIn, List.countP_cons]
  congr 1
  by_cases hg : g <;> by_cases h1 : a < t <;> by_cases h2 : t ≤ b <;>
    simp [hg, h1, h2]

/-- Window-count bound, phase 2: once the last clock reading
`l` is known, the grants in `(a, b]` among the remaining probes are
bounded by the current tokens plus the refill the window can still
produce from `l`. -/
theorem bucketRun_window_aux (cfg : BucketCfg) (a b : ℚ) :
    ∀ (ts : List ℚ) (st : BucketState) (l : ℚ), st.lastChecked = some l →
      0 ≤ st.tokens → List.Chain (· ≤ ·) l ts →
      (grantsIn a b (bucketRun cfg st ts) : ℚ) ≤
        max 0 (st.tokens + (b - l) * cfg.rate) := by
  intro ts
  induction ts with
  | nil =>
    intro st l _ _ _
    simp [bucketRun, grantsIn]
  | cons t ts ih =>
    intro st l hlc h0 hchain
    rcases List.chain_cons.mp hchain with ⟨hlt, hchain'⟩
    have hlc1 := flow_lastChecked cfg st t
    have h1nonneg : 0 ≤ (flow cfg st t).tokens :=
      flow_tokens_nonneg cfg st t h0
        (fun l' hl' => by rw [hlc] at hl'; cases hl'; exact hlt)
    have hbound : (flow cfg st t).tokens ≤ st.tokens + (t - l) * cfg.rate :=
      flow_tokens_le_add cfg st t l hlc hlt
    have hsplit : st.tokens + (t - l) * cfg.rate + (b - t) * cfg.rate =
        st.tokens + (b - l) * cfg.rate := by ring
    have hkey : (flow cfg st t).tokens + (b - t) * cfg.rate ≤
        st.tokens + (b - l) * cfg.rate := by linarith
    by_cases hg : 1 ≤ (flow cfg st t).tokens
    · have hstep : bucketStep cfg st t =
          (⟨(flow cfg st t).tokens - 1, (flow cfg st t).lastChecked⟩, true) := by
        simp [bucketStep, hg]
      have hrest := ih ⟨(flow cfg st t).tokens - 1, (flow cfg st t).lastChecked⟩ t
        hlc1 (by simp only []; linarith) hchain'
      rw [bucketRun, hstep, grantsIn_cons]
      by_cases hwin : a < t ∧ t ≤ b
      · have hratepos : 0 ≤ (b - t) * cfg.rate :=
          mul_nonneg (by linarith [hwin.2]) cfg.rate_nonneg
        have hargpos : (0 : ℚ) ≤ (flow cfg st t).tokens - 1 + (b - t) * cfg.rate := by
          simp only [] at hrest ⊢
          linarith
        rw [show (⟨(flow cfg st t).tokens - 1,
              (flow cfg st t).lastChecked⟩ : BucketState).tokens =
            (flow cfg st t).tokens - 1 from rfl,
          max_eq_right hargpos] at hrest
        have hcond : (true = true ∧ a < t ∧ t ≤ b) := ⟨rfl, hwin⟩
        rw [if_pos hcond]
        refine le_trans ?_ (le_max_right 0 _)
        push_cast
        linarith
      · have hcond : ¬(true = true ∧ a < t ∧ t ≤ b) := fun h => hwin h.2
        rw [if_neg hcond]
        have hmono : max 0 ((flow cfg st t).tokens - 1 + (b - t) * cfg.rate) ≤
            max 0 (st.tokens + (b - l) * cfg.rate) :=
          max_le_max le_rfl (by linarith)
        rw [show (⟨(flow cfg st t).tokens - 1,
              (flow cfg st t).lastChecked⟩ : BucketState).tokens =
            (flow cfg st t).tokens - 1 from rfl] at hrest
        push_cast
        linarith [le_trans hrest hmono]
    · have hstep : bucketStep cfg st t = (flow cfg st t, false) := by
        simp [bucketStep, hg]
      have hrest := ih (flow cfg st t) t hlc1 h1nonneg hchain'
      have hmono : max 0 ((flow cfg st t).tokens + (b - t) * cfg.rate) ≤
          max 0 (st.tokens + (b - l) * cfg.rate) :=
        max_le_max le_rfl hkey
      rw [bucketRun, hstep, grantsIn_cons]
      have hcond : ¬(false = true ∧ a < t ∧ t ≤ b) := fun h => by cases h.1
      rw [if_neg hcond]
      push_cast
      linarith [le_trans hrest hmono]

/-- Window-count bound: starting from any state whose bucket holds at
most `burst` tokens, the grants in `(a, b]` are bounded by
`burst + (b − a) · rate`. -/
theorem bucketRun_window_bound (cfg : BucketCfg) (a b : ℚ) :
    ∀ (ts : List ℚ) (st : BucketState),
      0 ≤ st.tokens → st.tokens ≤ (cfg.burst : ℚ) →
      chainFrom st.lastChecked ts →
      (grantsIn a b (bucketRun cfg st ts) : ℚ) ≤
        max 0 ((cfg.burst : ℚ) + (b - a) * cfg.rate) := by
  intro ts
  induction ts with
  | nil =>
    intro st _ _ _
    simp [bucketRun, grantsIn]
  | cons t ts ih =>
    intro st h0 hburst hchain
    have hlast : ∀ l, st.lastChecked = some l → l ≤ t := by
      intro l hl
      rw [hl] at hchain
      exact (List.chain_cons.mp hchain).1
    have hchain' : List.Chain (· ≤ ·) t ts := by
      cases hc : st.lastChecked with
      | none => rw [hc] at hchain; exact hchain
      | some l => rw [hc] at hchain; exact (List.chain_cons.mp hchain).2
    have hlc1 := flow_lastChecked cfg st t
    have h1nonneg : 0 ≤ (flow cfg st t).tokens :=
      flow_tokens_nonneg cfg st t h0 hlast
    have h1burst : (flow cfg st t).tokens ≤ (cfg.burst : ℚ) :=
      flow_tokens_le_burst cfg st t hburst
    by_cases hg : 1 ≤ (flow cfg st t).tokens
    · have hstep : bucketStep cfg st t =
          (⟨(flow cfg st t).tokens - 1, (flow cfg st t).lastChecked⟩, true) := by
        simp [bucketStep, hg]
      rw [bucketRun, hstep, grantsIn_cons]
      by_cases hta : t ≤ a
      · have hcond : ¬(true = true ∧ a < t ∧ t ≤ b) := fun h => absurd h.2.1 (not_lt.mpr hta)
        rw [if_neg hcond]
        have := ih ⟨(flow cfg st t).tokens - 1, (flow cfg st t).lastChecked⟩
          (by simp only []; linarith) (by simp only []; linarith)
          (by rw [show (⟨(flow cfg st t).tokens - 1,
                (flow cfg st t).lastChecked⟩ : BucketState).lastChecked =
              some t from hlc1]; exact hchain')
        push_cast
        push_cast at this
        linarith
      · push_neg at hta
        have hrest := bucketRun_window_aux cfg a b ts
          ⟨(flow cfg st t).tokens - 1, (flow cfg st t).lastChecked⟩ t
          hlc1 (by simp only []; linarith) hchain'
        rw [show (⟨(flow cfg st t).tokens - 1,
              (flow cfg st t).lastChecked⟩ : BucketState).tokens =
            (flow cfg st t).tokens - 1 from rfl] at hrest
        have hba : (b - t) * cfg.rate ≤ (b - a) * cfg.rate :=
          mul_le_mul_of_nonneg_right (by linarith) cfg.rate_nonneg
        by_cases htb : t ≤ b
        · have hcond : (true = true ∧ a < t ∧ t ≤ b) := ⟨rfl, hta, htb⟩
          rw [if_pos hcond]
          have hratepos : 0 ≤ (b - t) * cfg.rate :=
            mul_nonneg (by linarith) cfg.rate_nonneg
          have hargpos : (0 : ℚ) ≤ (flow cfg st t).tokens - 1 + (b - t) * cfg.rate := by
            linarith
          rw [max_eq_right hargpos] at hrest
          refine le_trans ?_ (le_max_right 0 _)
          push_cast
          linarith
        · have hcond : ¬(true = true ∧ a < t ∧ t ≤ b) := fun h => htb h.2.2
          rw [if_neg hcond]
          have hmono : max 0 ((flow cfg st t).tokens - 1 + (b - t) * cfg.rate) ≤
              max 0 ((cfg.burst : ℚ) + (b - a) * cfg.rate) :=
            max_le_max le_rfl (by linarith)
          push_cast
          linarith [le_trans hrest hmono]
    · have hstep : bucketStep cfg st t = (flow cfg st t, false) := by
        simp [bucketStep, hg]
      rw [bucketRun, hstep, grantsIn_cons]
      have hcond : ¬(false = true ∧ a < t ∧ t ≤ b) := fun h => by cases h.1
      rw [if_neg hcond]
      by_cases hta : t ≤ a
      · have := ih (flow cfg st t) h1nonneg h1burst (by rw [hlc1]; exact hchain')
        push_cast
        push_cast at this
        linarith
      · push_neg at hta
        have hrest := bucketRun_window_aux cfg a b ts (flow cfg st t) t
          hlc1 h1nonneg hchain'
        have hba : (b - t) * cfg.rate ≤ (b - a) * cfg.rate :=
          mul_le_mul_of_nonneg_right (by linarith) cfg.rate_nonneg
        have hmono : max 0 ((flow cfg st t).tokens + (b - t) * cfg.rate) ≤
            max 0 ((cfg.burst : ℚ) + (b - a) * cfg.rate) :=
          max_le_max le_rfl (by linarith)
        push_cast
        linarith [le_trans hrest hmono]

/-- C1 counterexample: the limiter constructed with `tokens=2, seconds=2`
(burst defaulting to 2) grants three acquisitions — two at `t = 0` from
the initial burst and one at `t = 1` from refill — all inside the window
`(−1, 1]` of length `2 = windowSeconds`, exceeding `capacity = 2`. -/
theorem C1_sliding_window_counterexample :
    grantsIn (-1) 1 (bucketRun ⟨2, 2, 2⟩ (bucketInit ⟨2, 2, 2⟩) [0, 0, 1]) = 3
    ∧ (1 : ℚ) - (-1) = ((2 : ℕ) : ℚ)
    ∧ List.Chain' (· ≤ ·) ([0, 0, 1] : List ℚ)
    ∧ ¬(3 ≤ 2) := by
  have h0 : bucketStep ⟨2, 2, 2⟩ (bucketInit ⟨2, 2, 2⟩) 0 = (⟨1, some 0⟩, true) := by
    norm_num [bucketStep, flow, bucketInit, BucketCfg.rate, min_def]
  have h1 : bucketStep ⟨2, 2, 2⟩ ⟨1, some 0⟩ 0 = (⟨0, some 0⟩, true) := by
    norm_num [bucketStep, flow, BucketCfg.rate, min_def]
  have h2 : bucketStep ⟨2, 2, 2⟩ ⟨0, some 0⟩ 1 = (⟨0, some 1⟩, true) := by
    norm_num [bucketStep, flow, BucketCfg.rate, min_def]
  refine ⟨?_, by norm_num, ?_, by norm_num⟩
  · rw [bucketRun, h0]
    rw [bucketRun, h1]
    rw [bucketRun, h2]
    rw [bucketRun]
    rw [grantsIn_cons, grantsIn_cons, grantsIn_cons]
    norm_num [grantsIn]
  · refine List.chain'_cons.mpr ⟨by norm_num, ?_⟩
    exact List.chain'_cons.mpr ⟨by norm_num, List.chain'_singleton _⟩

/-- C1 amended: for every nondecreasing sequence of acquire probes, the
number of grants inside any window `(a, b]` of length at most
`windowSeconds` never exceeds `burst + capacity` (the initial burst
rides on top of the window's refill), and the number of grants inside
any window shorter than one refill interval (`1 / rate`) never exceeds
`burst`. -/
theorem C1_sliding_window_amended (cfg : BucketCfg) (ts : List ℚ) (a b : ℚ)
    (hts : List.Chain' (· ≤ ·) ts) :
    (b - a ≤ (cfg.seconds : ℚ) →
      grantsIn a b (bucketRun cfg (bucketInit cfg) ts) ≤ cfg.burst + cfg.maxTokens)
    ∧ (b - a < 1 / cfg.rate →
      grantsIn a b (bucketRun cfg (bucketInit cfg) ts) ≤ cfg.burst) := by
  have hcore := bucketRun_window_bound cfg a b ts (bucketInit cfg)
    (by simp [bucketInit]) (by simp [bucketInit]) hts
  constructor
  · intro hba
    have hrefill : (b - a) * cfg.rate ≤ (cfg.maxTokens : ℚ) := by
      rcases Nat.eq_zero_or_pos cfg.seconds with hs | hs
      · simp [BucketCfg.rate, hs]
      · have hs' : (0 : ℚ) < (cfg.seconds : ℚ) := by exact_mod_cast hs
        calc (b - a) * cfg.rate ≤ (cfg.seconds : ℚ) * cfg.rate :=
              mul_le_mul_of_nonneg_right hba cfg.rate_nonneg
          _ = (cfg.maxTokens : ℚ) := by
              rw [BucketCfg.rate, mul_div_assoc']
              exact mul_div_cancel_left₀ _ (ne_of_gt hs')
    have hmax : max 0 ((cfg.burst : ℚ) + (b - a) * cfg.rate) ≤
        (cfg.burst : ℚ) + (cfg.maxTokens : ℚ) := by
      refine max_le (by positivity) (by linarith)
    have : (grantsIn a b (bucketRun cfg (bucketInit cfg) ts) : ℚ) ≤
        (cfg.burst : ℚ) + (cfg.maxTokens : ℚ) := le_trans hcore hmax
    exact_mod_cast this
  · intro hba
    have hone : (b - a) * cfg.rate < 1 := by
      rcases eq_or_lt_of_le cfg.rate_nonneg with hr | hr
      · rw [← hr, mul_zero]; norm_num
      · have := mul_lt_mul_of_pos_right hba hr
        rwa [one_div, inv_mul_cancel₀ (ne_of_gt hr)] at this
    have hlt : max 0 ((cfg.burst : ℚ) + (b - a) * cfg.rate) <
        (cfg.burst : ℚ) + 1 := by
      refine max_lt (by positivity) (by linarith)
    have : (grantsIn a b (bucketRun cfg (bucketInit cfg) ts) : ℚ) <
        ((cfg.burst + 1 : ℕ) : ℚ) := by
      push_cast
      linarith [lt_of_le_of_lt hcore hlt]
    exact Nat.lt_succ_iff.mp (by exact_mod_cast this)

/-- C1 amended witness: the counterexample trace respects the amended
bound — at most `burst + capacity = 4` grants in the window `(−1, 1]`. -/
theorem C1_sliding_window_amended_witness :
    grantsIn (-1) 1 (bucketRun ⟨2, 2, 2⟩ (bucketInit ⟨2, 2, 2⟩) [0, 0, 1]) ≤ 2 + 2 :=
  (C1_sliding_window_amended ⟨2, 2, 2⟩ [0, 0, 1] (-1) 1
    (List.chain'_cons.mpr ⟨by norm_num,
      List.chain'_cons.mpr ⟨by norm_num, List.chain'_singleton _⟩⟩)).1
    (by norm_num)

end DarkSeer
